import Mathlib

/-!
# Climatology plugin: precipitation preprocessor and wind atlas point lookup

A shallow embedding of

* `gendata/genprecipdata.cpp` (`main`): monthly averaging of the CMAP
  precipitation samples and their condensation to one byte per cell;
* `src/ClimatologyOverlayFactory.h` (`WindData`, `WindData::GetPolar`): the
  nearest cell lookup of the wind atlas.

## Numbers

C `int` values are modelled by `ℤ` and `ℕ` (signed overflow is undefined in C++;
the size conditions under which no intermediate value overflows are stated
where they are used).

A finite `float` or `double` is modelled by the rational number it denotes.
Every arithmetic operation of the source is the exact operation followed by
the rounding of its format; the two roundings are the fields `rndF` (binary32)
and `rndD` (binary64) of a `FloatEnv`, together with the properties of IEEE 754
round-to-nearest that the proofs use.  Theorems quantified over a `FloatEnv`
therefore hold for every rounding with these properties: exact arithmetic
(`exactArith`) and the round-to-nearest-even of binary32 and binary64
(`roundTo`, `ieee_floatEnv`) are two of them.  Overflow to infinity is outside
the model; the not-a-number and the infinities that a division by zero
produces are values of `FVal`.
-/

namespace Climatology

/-! ## Floating point environment -/

/-- Roundings of the two floating point formats used by the sources.
`rndF x` is the `float` nearest to the exact result `x`, `rndD x` the `double`.
The remaining fields are properties of IEEE 754 round-to-nearest:
monotonicity, exactness on small integers and half-integers, idempotence, and
exactness of the `double` product of a `float` with five (a 24 bit
significand times five has at most 27 bits). -/
structure FloatEnv where
  rndF : ℚ → ℚ
  rndD : ℚ → ℚ
  monoF : ∀ x y : ℚ, x ≤ y → rndF x ≤ rndF y
  monoD : ∀ x y : ℚ, x ≤ y → rndD x ≤ rndD y
  fixF : ∀ n : ℤ, |n| ≤ 2 ^ 24 → rndF (n : ℚ) = n
  fixD : ∀ n : ℤ, |n| ≤ 2 ^ 53 → rndD (n : ℚ) = n
  halfD : ∀ n : ℤ, |n| ≤ 2 ^ 53 → rndD ((n : ℚ) / 2) = (n : ℚ) / 2
  idemF : ∀ x : ℚ, rndF (rndF x) = rndF x
  five_exact : ∀ x : ℚ, rndD (rndF x * 5) = rndF x * 5

/-- Exact arithmetic: no operation rounds. -/
def exactArith : FloatEnv where
  rndF := fun x => x
  rndD := fun x => x
  monoF := fun _ _ h => h
  monoD := fun _ _ h => h
  fixF := fun _ _ => rfl
  fixD := fun _ _ => rfl
  halfD := fun _ _ => rfl
  idemF := fun _ => rfl
  five_exact := fun _ => rfl

/-- Round to the nearest integer, ties to the even one. -/
def rne (y : ℚ) : ℤ :=
  if y - ⌊y⌋ < 1 / 2 then ⌊y⌋
  else if 1 / 2 < y - ⌊y⌋ then ⌊y⌋ + 1
  else if ⌊y⌋ % 2 = 0 then ⌊y⌋ else ⌊y⌋ + 1

/-- The exponent of the unit in the last place of `x` in a binary format with
`p` significand bits whose smallest positive (subnormal) value is `2 ^ emin`. -/
def quantExp (p : ℕ) (emin : ℤ) (x : ℚ) : ℤ := max emin (Int.log 2 |x| - ((p : ℤ) - 1))

/-- IEEE 754 round-to-nearest-even of `x` to the binary format with `p`
significand bits and smallest positive value `2 ^ emin`, without overflow:
binary32 is `roundTo 24 (-149)`, binary64 is `roundTo 53 (-1074)`. -/
def roundTo (p : ℕ) (emin : ℤ) (x : ℚ) : ℚ :=
  (rne (x / 2 ^ quantExp p emin x) : ℚ) * 2 ^ quantExp p emin x

/-- A floating point value: finite, an infinity, or not-a-number. -/
inductive FVal where
  | fin (q : ℚ)
  | pinf
  | ninf
  | nan
  deriving DecidableEq

/-- Conversion of a floating point number to an integer type discards the
fractional part (truncation toward zero). -/
def truncQ (q : ℚ) : ℤ := if 0 ≤ q then ⌊q⌋ else ⌈q⌉

/-- C `round`: nearest integer, halfway cases away from zero. -/
def cround (q : ℚ) : ℤ := if 0 ≤ q then ⌊q + 1 / 2⌋ else ⌈q - 1 / 2⌉

/-- Conversion of a finite `double` to `uint8_t`: truncation, kept modulo 256
(the conversion is undefined in C++ when the truncated value is outside
0..255; the reduction models the usual wrap of the low byte). -/
def toUint8 (x : ℚ) : ℕ := (truncQ x % 256).toNat

/-! ## genprecipdata.cpp -/

/-- The number of latitude rows, `#define LATS 72`. -/
def LATS : ℕ := 72

/-- The number of longitude columns, `#define LONS 144`. -/
def LONS : ℕ := 144

/-- What `main` reads from `precip.mon.mean.nc`: the validity flags and
dimension counts it checks, the size of the time dimension, and the samples
`precipd` as a flat array indexed by `(k*LATS+i)*LONS+j`. -/
structure NcInput where
  is_valid : Bool
  num_dims : ℕ
  num_vars : ℕ
  var_is_valid : Bool
  var_num_dims : ℕ
  timecnt : ℕ
  precipd : ℕ → FVal

/-- The test `v >= 0 && v <= 30` on a sample (comparisons with a not-a-number
or outside the interval are false). -/
def inRange : FVal → Bool
  | .fin v => decide (0 ≤ v) && decide (v ≤ 30)
  | _ => false

/-- The accumulators of one cell: `precipdmon[k][i][j]` (running sums) and
`precipdmoncnt[k]` for the twelve months `k`. -/
structure MonAcc where
  sum : ℕ → ℚ
  cnt : ℕ → ℚ

/-- One iteration of the loop over the time index `k` for cell `(i, j)`:
an in-range sample is added to the sum of month `k % 12` (the `float` sum is
widened to `double`, added, and stored back as `float`) and the count of that
month is incremented. -/
def accumStep (E : FloatEnv) (precipd : ℕ → FVal) (i j : ℕ) (st : MonAcc) (k : ℕ) : MonAcc :=
  match precipd ((k * LATS + i) * LONS + j) with
  | .fin v =>
    if 0 ≤ v ∧ v ≤ 30 then
      { sum := Function.update st.sum (k % 12) (E.rndF (E.rndD (st.sum (k % 12) + v)))
        cnt := Function.update st.cnt (k % 12) (E.rndF (st.cnt (k % 12) + 1)) }
    else st
  | _ => st

/-- The accumulators of cell `(i, j)` after the iterations `k = 0, …, n-1`,
starting from all zeros. -/
def accum (E : FloatEnv) (precipd : ℕ → FVal) (i j : ℕ) : ℕ → MonAcc
  | 0 => { sum := fun _ => 0, cnt := fun _ => 0 }
  | n + 1 => accumStep E precipd i j (accum E precipd i j n) n

/-- The `float` division `s / c` for a count `c ≥ 0`: `0/0` is not-a-number,
a nonzero sum over zero an infinity. -/
def fdiv (E : FloatEnv) (s c : ℚ) : FVal :=
  if c = 0 then (if s = 0 then .nan else if 0 < s then .pinf else .ninf)
  else .fin (E.rndF (s / c))

/-- The monthly mean `precipdmon[k][i][j]` after the averaging loops. -/
def precipdmon (E : FloatEnv) (inp : NcInput) (k i j : ℕ) : FVal :=
  fdiv E ((accum E inp.precipd i j inp.timecnt).sum k) ((accum E inp.precipd i j inp.timecnt).cnt k)

/-- The byte stored for a monthly mean: 255 for a not-a-number, otherwise the
`double` product with `5.0` converted to `uint8_t`.  (The conversion of an
infinity is undefined; the model gives 0.) -/
def encode (E : FloatEnv) : FVal → ℕ
  | .nan => 255
  | .fin q => toUint8 (E.rndD (q * 5))
  | _ => 0

/-- The byte `precipbyte[i][j][k]`: month `i`, latitude row `j`, longitude
column `k`. -/
def precipbyte (E : FloatEnv) (inp : NcInput) (i j k : ℕ) : ℕ :=
  encode E (precipdmon E inp i j k)

/-- The program: exit code 1 with nothing written when the file or the
variable fails the checks, otherwise the bytes of `precipbyte` written to the
standard output in memory order. -/
def main (E : FloatEnv) (inp : NcInput) : Except ℕ (List ℕ) :=
  if !inp.is_valid || inp.num_dims != 3 || inp.num_vars != 4 then .error 1
  else if !inp.var_is_valid || inp.var_num_dims != 3 then .error 1
  else .ok ((List.range (12 * LATS * LONS)).map
    fun p => precipbyte E inp (p / (LATS * LONS)) (p / LONS % LATS) (p % LONS))

/-- The input passes the checks of `main` and its sample count
`timecnt*LATS*LONS` fits in an `int`, as the allocation and the index
arithmetic require. -/
def NcInput.wellFormed (inp : NcInput) : Prop :=
  inp.is_valid = true ∧ inp.num_dims = 3 ∧ inp.num_vars = 4 ∧
  inp.var_is_valid = true ∧ inp.var_num_dims = 3 ∧
  inp.timecnt * LATS * LONS < 2 ^ 31

/-- Cell `(i, j)` has in month `m` a sample inside `[0, 30]`. -/
def hasSample (inp : NcInput) (m i j : ℕ) : Prop :=
  ∃ k, k < inp.timecnt ∧ k % 12 = m ∧ inRange (inp.precipd ((k * LATS + i) * LONS + j)) = true

/-- The sample of time index `k` at cell `(i, j)` when it belongs to month `m`
(`k % 12 = m`) and its value lies in `[0, 30]`. -/
def pick (precipd : ℕ → FVal) (m i j k : ℕ) : Option ℚ :=
  if k % 12 = m then
    match precipd ((k * 72 + i) * 144 + j) with
    | .fin v => if 0 ≤ v ∧ v ≤ 30 then some v else none
    | _ => none
  else none

/-- The in-range samples of month `m` at cell `(i, j)` among the first `n`
time indices, in time order. -/
def samplesBefore (precipd : ℕ → FVal) (m i j n : ℕ) : List ℚ :=
  (List.range n).filterMap (pick precipd m i j)

/-- The in-range samples of month `m` at cell `(i, j)`, in time order: the
samples `precipd[(k*72+i)*144+j]` with `k % 12 = m` and value in `[0, 30]`. -/
def monthSamples (inp : NcInput) (m i j : ℕ) : List ℚ :=
  samplesBefore inp.precipd m i j inp.timecnt

/-- The sum of a list as the program evaluates it: left to right, every
addition rounded to `double` and then to `float`. -/
def fsum (E : FloatEnv) (xs : List ℚ) : ℚ :=
  xs.foldl (fun s v => E.rndF (E.rndD (s + v))) 0

/-- Modelled from the spec: the decoder of the condensed binary format, which
is part of the loader and not among the sources.  Byte 255 is missing, every
other byte `b` stands for `b / 5`. -/
def decode (b : ℕ) : Option ℚ := if b = 255 then none else some ((b : ℚ) / 5)

/-! ## WindData -/

/-- The fields of `WindData::WindPolar`. -/
structure WindPolar where
  storm : ℕ
  calm : ℕ
  directions : List ℕ
  speeds : List ℕ
  deriving DecidableEq, Inhabited

/-- The fields of `WindData`. -/
structure WindData where
  latitudes : ℤ
  longitudes : ℤ
  dir_cnt : ℤ
  data : Array WindPolar

/-- The constructor `WindData(lats, lons, dirs)`: `data` is a fresh array of
`lats*lons` cells (their `storm` and `calm` bytes are not initialised by the
source; the loader writes them, see `WindData.fill`). -/
def WindData.create (lats lons dirs : ℤ) : WindData :=
  { latitudes := lats, longitudes := lons, dir_cnt := dirs,
    data := Array.mkArray (lats * lons).toNat default }

/-- The loader writes the cells of an existing grid: the contents change, the
dimensions and the size of `data` do not. -/
def WindData.fill (w : WindData) (cells : ℕ → WindPolar) : WindData :=
  { w with data := Array.ofFn (fun i : Fin w.data.size => cells i.val) }

/-- Reading `data[idx]`: `none` when `idx` is outside the allocated array. -/
def WindData.load (w : WindData) (idx : ℤ) : Option WindPolar :=
  if 0 ≤ idx then w.data[idx.toNat]? else none

/-- The result of `GetPolar`: the null pointer, a pointer to the cell at an
offset of `data`, or a read outside the allocated array. -/
inductive Lookup where
  | null
  | cell (idx : ℕ)
  | fault
  deriving DecidableEq

/-- The row index `int lati = round(latitudes*(.5+lat/180.0))`. -/
def latIndex (E : FloatEnv) (w : WindData) (lat : ℚ) : ℤ :=
  cround (E.rndD ((w.latitudes : ℚ) * E.rndD (1 / 2 + E.rndD (lat / 180))))

/-- The column index `int loni = round(longitudes*lon/360.0)`. -/
def lonIndex (E : FloatEnv) (w : WindData) (lon : ℚ) : ℤ :=
  cround (E.rndD (E.rndD ((w.longitudes : ℚ) * lon) / 360))

/-- The index `lati*longitudes + loni` that `GetPolar` dereferences, `none`
when it returns before the dereference. -/
def polarIndex (E : FloatEnv) (w : WindData) (lat lon : ℚ) : Option ℤ :=
  if latIndex E w lat < 0 ∨ latIndex E w lat ≥ w.latitudes ∨
      lonIndex E w lon < 0 ∨ lonIndex E w lon ≥ w.longitudes then none
  else some (latIndex E w lat * w.longitudes + lonIndex E w lon)

/-- The lookup `WindData::GetPolar(lat, lon)` for finite `lat` and `lon`. -/
def GetPolar (E : FloatEnv) (w : WindData) (lat lon : ℚ) : Lookup :=
  match polarIndex E w lat lon with
  | none => .null
  | some idx =>
    match w.load idx with
    | none => .fault
    | some polar => if polar.storm = 255 then .null else .cell idx.toNat

/-- A grid as the program builds it: constructed with `lats`, `lons`, `dirs`,
its cells then written by the loader. -/
def WindData.build (lats lons dirs : ℤ) (cells : ℕ → WindPolar) : WindData :=
  (WindData.create lats lons dirs).fill cells

/-- A grid with four rows and eight columns, every cell with storm byte 0. -/
def sampleGrid : WindData :=
  WindData.build 4 8 8 fun _ => { storm := 0, calm := 0, directions := [], speeds := [] }

/-- A two month dataset: the first month holds the fill value `-999` in every
cell, the second month the value `1`. -/
def gapInput : NcInput :=
  { is_valid := true, num_dims := 3, num_vars := 4, var_is_valid := true, var_num_dims := 3,
    timecnt := 2, precipd := fun p => if p < 10368 then .fin (-999) else .fin 1 }

/-- A one month dataset whose samples are all `3/16`. -/
def sampleInput : NcInput :=
  { is_valid := true, num_dims := 3, num_vars := 4, var_is_valid := true, var_num_dims := 3,
    timecnt := 1, precipd := fun _ => .fin (3 / 16) }

/-! ## Auxiliary facts: round-to-nearest-even is a floating point environment -/

theorem rne_intCast (n : ℤ) : rne (n : ℚ) = n := by
  simp [rne]

theorem rne_floor_le (y : ℚ) : ⌊y⌋ ≤ rne y := by
  unfold rne; split_ifs <;> omega

theorem rne_le_floor_succ (y : ℚ) : rne y ≤ ⌊y⌋ + 1 := by
  unfold rne; split_ifs <;> omega

theorem rne_mono {y z : ℚ} (h : y ≤ z) : rne y ≤ rne z := by
  rcases (Int.floor_mono h).lt_or_eq with hlt | heq
  · calc rne y ≤ ⌊y⌋ + 1 := rne_le_floor_succ y
      _ ≤ ⌊z⌋ := hlt
      _ ≤ rne z := rne_floor_le z
  · unfold rne
    rw [← heq]
    split_ifs <;> first | omega | (exfalso; linarith)

theorem rne_neg (y : ℚ) : rne (-y) = -rne y := by
  by_cases hy : (⌊y⌋ : ℚ) = y
  · rw [← hy, ← Int.cast_neg, rne_intCast, rne_intCast]
  · have hlt : (⌊y⌋ : ℚ) < y := lt_of_le_of_ne (Int.floor_le y) hy
    have hf : ⌊-y⌋ = -⌊y⌋ - 1 := by
      rw [Int.floor_eq_iff]
      have := Int.lt_floor_add_one y
      push_cast
      constructor <;> linarith
    unfold rne
    rw [hf]
    push_cast
    split_ifs <;> first | omega | (exfalso; linarith)

theorem two_zpow_pos (e : ℤ) : (0 : ℚ) < 2 ^ e := zpow_pos (by norm_num) e

theorem quantExp_neg (p : ℕ) (emin : ℤ) (x : ℚ) : quantExp p emin (-x) = quantExp p emin x := by
  simp [quantExp]

theorem roundTo_neg (p : ℕ) (emin : ℤ) (x : ℚ) : roundTo p emin (-x) = -roundTo p emin x := by
  unfold roundTo
  rw [quantExp_neg, neg_div, rne_neg]
  push_cast
  ring

theorem roundTo_nonneg (p : ℕ) (emin : ℤ) {x : ℚ} (h : 0 ≤ x) : 0 ≤ roundTo p emin x := by
  unfold roundTo
  have h1 : (0 : ℤ) ≤ rne (x / 2 ^ quantExp p emin x) := by
    have := rne_mono (div_nonneg h (two_zpow_pos (quantExp p emin x)).le)
    rwa [← Int.cast_zero, rne_intCast] at this
  have h2 : (0 : ℚ) ≤ (rne (x / 2 ^ quantExp p emin x) : ℚ) := by exact_mod_cast h1
  exact mul_nonneg h2 (two_zpow_pos _).le

theorem lt_two_zpow_quantExp (p : ℕ) (emin : ℤ) (x : ℚ) :
    |x| < 2 ^ (quantExp p emin x + p) := by
  have h1 := Int.lt_zpow_succ_log_self (b := 2) (by norm_num) |x|
  have h2 : Int.log 2 |x| + 1 ≤ quantExp p emin x + p := by
    unfold quantExp
    have := le_max_right emin (Int.log 2 |x| - ((p : ℤ) - 1))
    omega
  calc |x| < ((2 : ℕ) : ℚ) ^ (Int.log 2 |x| + 1) := h1
    _ = (2 : ℚ) ^ (Int.log 2 |x| + 1) := by norm_num
    _ ≤ 2 ^ (quantExp p emin x + p) := zpow_le_zpow_right₀ (by norm_num) h2

theorem two_zpow_le_of_quantExp (p : ℕ) (emin : ℤ) {x : ℚ} (hx : x ≠ 0)
    (he : emin < quantExp p emin x) : (2 : ℚ) ^ (quantExp p emin x + p - 1) ≤ |x| := by
  have h1 := Int.zpow_log_le_self (b := 2) (by norm_num) (abs_pos.mpr hx)
  have h2 : quantExp p emin x = Int.log 2 |x| - ((p : ℤ) - 1) := by
    unfold quantExp at he ⊢
    rcases max_cases emin (Int.log 2 |x| - ((p : ℤ) - 1)) with ⟨h, _⟩ | ⟨h, _⟩
    · rw [h] at he; omega
    · exact h
  have h3 : quantExp p emin x + p - 1 = Int.log 2 |x| := by omega
  rw [h3]
  calc (2 : ℚ) ^ Int.log 2 |x| = ((2 : ℕ) : ℚ) ^ Int.log 2 |x| := by norm_num
    _ ≤ |x| := h1

theorem quantExp_mono (p : ℕ) (emin : ℤ) {x y : ℚ} (hx : 0 < x) (h : x ≤ y) :
    quantExp p emin x ≤ quantExp p emin y := by
  unfold quantExp
  have := Int.log_mono_right (b := 2) (abs_pos.mpr hx.ne')
    (by rw [abs_of_pos hx, abs_of_pos (lt_of_lt_of_le hx h)]; exact h : |x| ≤ |y|)
  exact max_le_max le_rfl (by omega)

theorem roundTo_mono_pos (p : ℕ) (emin : ℤ) (hp : 1 ≤ p) {x y : ℚ} (hx : 0 < x) (h : x ≤ y) :
    roundTo p emin x ≤ roundTo p emin y := by
  have hy : 0 < y := lt_of_lt_of_le hx h
  rcases (quantExp_mono p emin hx h).lt_or_eq with hlt | heq
  · -- different binades: the boundary `2 ^ (ex + p)` separates the two results
    have hxb : x / 2 ^ quantExp p emin x ≤ ((2 ^ p : ℤ) : ℚ) := by
      rw [div_le_iff₀ (two_zpow_pos _)]
      have := lt_two_zpow_quantExp p emin x
      rw [abs_of_pos hx, add_comm, zpow_add₀ (by norm_num), zpow_natCast] at this
      push_cast
      exact this.le
    have hx2 : roundTo p emin x ≤ 2 ^ (quantExp p emin x + p) := by
      unfold roundTo
      have h1 := rne_mono hxb
      rw [rne_intCast] at h1
      have h2 : (rne (x / 2 ^ quantExp p emin x) : ℚ) ≤ ((2 ^ p : ℤ) : ℚ) := by exact_mod_cast h1
      rw [add_comm, zpow_add₀ (by norm_num), zpow_natCast]
      push_cast at h2
      exact mul_le_mul_of_nonneg_right h2 (two_zpow_pos _).le
    have hemin : emin < quantExp p emin y :=
      lt_of_le_of_lt (le_max_left _ _) hlt
    have hyb : ((2 : ℚ) ^ (quantExp p emin y + p - 1)) ≤ roundTo p emin y := by
      have hb := two_zpow_le_of_quantExp p emin hy.ne' hemin
      rw [abs_of_pos hy] at hb
      have e1 : quantExp p emin y + p - 1 = ((p - 1 : ℕ) : ℤ) + quantExp p emin y := by
        omega
      have hyq : (((2 ^ (p - 1) : ℕ) : ℤ) : ℚ) ≤ y / 2 ^ quantExp p emin y := by
        rw [le_div_iff₀ (two_zpow_pos _)]
        rw [e1, zpow_add₀ (by norm_num), zpow_natCast] at hb
        push_cast
        exact hb
      have h1 := rne_mono hyq
      rw [rne_intCast] at h1
      have h2 : (((2 ^ (p - 1) : ℕ) : ℤ) : ℚ) ≤ (rne (y / 2 ^ quantExp p emin y) : ℚ) := by
        exact_mod_cast h1
      unfold roundTo
      rw [e1, zpow_add₀ (by norm_num), zpow_natCast]
      push_cast at h2
      exact mul_le_mul_of_nonneg_right h2 (two_zpow_pos _).le
    calc roundTo p emin x ≤ 2 ^ (quantExp p emin x + p) := hx2
      _ ≤ 2 ^ (quantExp p emin y + p - 1) := zpow_le_zpow_right₀ (by norm_num) (by omega)
      _ ≤ roundTo p emin y := hyb
  · unfold roundTo
    rw [heq]
    have h1 : x / 2 ^ quantExp p emin y ≤ y / 2 ^ quantExp p emin y :=
      div_le_div_of_nonneg_right h (two_zpow_pos _).le
    have h2 : (rne (x / 2 ^ quantExp p emin y) : ℚ) ≤ (rne (y / 2 ^ quantExp p emin y) : ℚ) := by
      exact_mod_cast rne_mono h1
    exact mul_le_mul_of_nonneg_right h2 (two_zpow_pos _).le

theorem roundTo_nonpos (p : ℕ) (emin : ℤ) {x : ℚ} (h : x ≤ 0) : roundTo p emin x ≤ 0 := by
  have := roundTo_nonneg p emin (neg_nonneg.mpr h)
  rw [roundTo_neg] at this
  linarith

theorem roundTo_mono (p : ℕ) (emin : ℤ) (hp : 1 ≤ p) (x y : ℚ) (h : x ≤ y) :
    roundTo p emin x ≤ roundTo p emin y := by
  rcases lt_or_le 0 x with hx | hx
  · exact roundTo_mono_pos p emin hp hx h
  · rcases le_or_lt 0 y with hy | hy
    · exact le_trans (roundTo_nonpos p emin hx) (roundTo_nonneg p emin hy)
    · have := roundTo_mono_pos p emin hp (neg_pos.mpr hy) (neg_le_neg h)
      rw [roundTo_neg, roundTo_neg] at this
      linarith

theorem roundTo_of_scaled_int (p : ℕ) (emin : ℤ) (x : ℚ) (z : ℤ)
    (h : x / 2 ^ quantExp p emin x = z) : roundTo p emin x = x := by
  unfold roundTo
  rw [h, rne_intCast, ← h]
  exact div_mul_cancel₀ x (two_zpow_pos _).ne'

theorem roundTo_representable (p : ℕ) (emin : ℤ) (hp : 1 ≤ p) (m k : ℤ)
    (hm : |m| ≤ 2 ^ p) (hk : emin ≤ k) :
    roundTo p emin ((m : ℚ) * 2 ^ k) = (m : ℚ) * 2 ^ k := by
  by_cases hm0 : m = 0
  · subst hm0
    simp [roundTo, rne]
  have hx0 : (m : ℚ) * 2 ^ k ≠ 0 :=
    mul_ne_zero (by exact_mod_cast hm0) (two_zpow_pos k).ne'
  rcases le_or_lt (quantExp p emin ((m : ℚ) * 2 ^ k)) k with he | he
  · -- the quantum divides `2 ^ k`
    apply roundTo_of_scaled_int p emin _ (m * 2 ^ (k - quantExp p emin ((m : ℚ) * 2 ^ k)).toNat)
    have e1 : k = ((k - quantExp p emin ((m : ℚ) * 2 ^ k)).toNat : ℤ) +
        quantExp p emin ((m : ℚ) * 2 ^ k) := by omega
    have e2 : (2 : ℚ) ^ k = 2 ^ (k - quantExp p emin ((m : ℚ) * 2 ^ k)).toNat *
        2 ^ quantExp p emin ((m : ℚ) * 2 ^ k) := by
      rw [← zpow_natCast, ← zpow_add₀ (by norm_num), ← e1]
    rw [div_eq_iff (two_zpow_pos _).ne']
    push_cast
    nth_rewrite 1 [e2]
    ring
  · -- only possible for `|m| = 2 ^ p`, where the quantum is `2 ^ (k + 1)`
    have hemin : emin < quantExp p emin ((m : ℚ) * 2 ^ k) := lt_of_le_of_lt hk he
    have hb := two_zpow_le_of_quantExp p emin hx0 hemin
    have habs : |(m : ℚ) * 2 ^ k| = (|m| : ℤ) * 2 ^ k := by
      rw [abs_mul, abs_of_pos (two_zpow_pos k)]
      push_cast
      rfl
    have hge : (2 : ℚ) ^ (k + p) ≤ (|m| : ℤ) * 2 ^ k := by
      rw [← habs]
      exact le_trans (zpow_le_zpow_right₀ (by norm_num) (by omega)) hb
    have hmge : (2 : ℤ) ^ p ≤ |m| := by
      rw [zpow_add₀ (by norm_num), zpow_natCast, mul_comm] at hge
      have := le_of_mul_le_mul_right hge (two_zpow_pos k)
      exact_mod_cast this
    have hmeq : |m| = 2 ^ p := le_antisymm hm hmge
    have hxabs : |(m : ℚ) * 2 ^ k| = ((2 : ℕ) : ℚ) ^ ((p : ℤ) + k) := by
      rw [habs, hmeq]
      push_cast
      rw [zpow_add₀ (by norm_num), zpow_natCast]
    have hq : quantExp p emin ((m : ℚ) * 2 ^ k) = k + 1 := by
      have hlog : Int.log 2 |(m : ℚ) * 2 ^ k| = (p : ℤ) + k := by
        rw [hxabs]
        exact Int.log_zpow (by norm_num) _
      unfold quantExp at he ⊢
      rw [hlog] at he ⊢
      rcases max_cases emin ((p : ℤ) + k - ((p : ℤ) - 1)) with ⟨h, _⟩ | ⟨h, _⟩
      · rw [h] at he; omega
      · rw [h]; omega
    have hmcases : m = 2 ^ p ∨ m = -(2 ^ p) := by
      rcases abs_cases m with ⟨h, _⟩ | ⟨h, _⟩
      · left; rw [← h]; exact hmeq
      · right; rw [← hmeq, h]; ring
    have hpp : p = (p - 1) + 1 := by omega
    rcases hmcases with h | h
    · apply roundTo_of_scaled_int p emin _ (2 ^ (p - 1))
      rw [hq, h, zpow_add₀ (by norm_num)]
      push_cast
      nth_rewrite 1 [hpp]
      rw [pow_succ]
      field_simp
      ring
    · apply roundTo_of_scaled_int p emin _ (-(2 ^ (p - 1)))
      rw [hq, h, zpow_add₀ (by norm_num)]
      push_cast
      nth_rewrite 1 [hpp]
      rw [pow_succ]
      field_simp
      ring

theorem roundTo_scaled (p : ℕ) (emin : ℤ) (x : ℚ) :
    ∃ z e : ℤ, |z| ≤ 2 ^ p ∧ emin ≤ e ∧ roundTo p emin x = (z : ℚ) * 2 ^ e := by
  refine ⟨rne (x / 2 ^ quantExp p emin x), quantExp p emin x, ?_, le_max_left _ _, rfl⟩
  have hlt := lt_two_zpow_quantExp p emin x
  rw [add_comm, zpow_add₀ (by norm_num), zpow_natCast] at hlt
  have h1 : |x / 2 ^ quantExp p emin x| ≤ ((2 ^ p : ℤ) : ℚ) := by
    rw [abs_div, abs_of_pos (two_zpow_pos _), div_le_iff₀ (two_zpow_pos _)]
    push_cast
    exact hlt.le
  obtain ⟨hlo, hhi⟩ := abs_le.mp h1
  have u := rne_mono hhi
  have l := rne_mono hlo
  rw [rne_intCast] at u
  rw [← Int.cast_neg, rne_intCast] at l
  exact abs_le.mpr ⟨l, u⟩

/-- The roundings of binary32 and binary64 (round to nearest, ties to even)
have all the properties a `FloatEnv` asks for. -/
theorem ieee_floatEnv :
    ∃ E : FloatEnv, E.rndF = roundTo 24 (-149) ∧ E.rndD = roundTo 53 (-1074) := by
  refine ⟨{ rndF := roundTo 24 (-149), rndD := roundTo 53 (-1074),
            monoF := roundTo_mono 24 (-149) (by norm_num),
            monoD := roundTo_mono 53 (-1074) (by norm_num),
            fixF := ?_, fixD := ?_, halfD := ?_, idemF := ?_, five_exact := ?_ }, rfl, rfl⟩
  · intro n h
    have := roundTo_representable 24 (-149) (by norm_num) n 0 h (by norm_num)
    simpa using this
  · intro n h
    have := roundTo_representable 53 (-1074) (by norm_num) n 0 h (by norm_num)
    simpa using this
  · intro n h
    have := roundTo_representable 53 (-1074) (by norm_num) n (-1) h (by norm_num)
    simpa [div_eq_mul_inv] using this
  · intro x
    obtain ⟨z, e, hz, he, hx⟩ := roundTo_scaled 24 (-149) x
    rw [hx]
    exact roundTo_representable 24 (-149) (by norm_num) z e hz he
  · intro x
    obtain ⟨z, e, hz, he, hx⟩ := roundTo_scaled 24 (-149) x
    rw [hx]
    have e1 : (z : ℚ) * 2 ^ e * 5 = ((5 * z : ℤ) : ℚ) * 2 ^ e := by
      push_cast; ring
    rw [e1]
    refine roundTo_representable 53 (-1074) (by norm_num) (5 * z) e ?_ (by omega)
    rw [abs_mul]
    have : |(5 : ℤ)| = 5 := by norm_num
    rw [this]
    have : (2 : ℤ) ^ 24 * 5 ≤ 2 ^ 53 := by norm_num
    linarith

/-! ## Auxiliary facts: conversions -/

theorem truncQ_of_nonneg {q : ℚ} (h : 0 ≤ q) : truncQ q = ⌊q⌋ := by
  simp [truncQ, h]

theorem toUint8_of_range {q : ℚ} (h0 : 0 ≤ q) (h1 : q < 256) :
    ((toUint8 q : ℕ) : ℤ) = ⌊q⌋ := by
  have hf0 : 0 ≤ ⌊q⌋ := Int.floor_nonneg.mpr h0
  have hf1 : ⌊q⌋ < 256 := Int.floor_lt.mpr (by exact_mod_cast h1)
  unfold toUint8
  rw [truncQ_of_nonneg h0, Int.emod_eq_of_lt hf0 hf1, Int.toNat_of_nonneg hf0]

theorem cround_ge_of_le {q : ℚ} {n : ℤ} (hn : 1 ≤ n) (h : (n : ℚ) - 1 / 2 ≤ q) :
    n ≤ cround q := by
  have hq : 0 ≤ q := by
    have : (1 : ℚ) ≤ n := by exact_mod_cast hn
    linarith
  unfold cround
  rw [if_pos hq, Int.le_floor]
  linarith

theorem cround_neg_of_le {q : ℚ} (h : q ≤ -(1 / 2)) : cround q ≤ -1 := by
  have hq : ¬ 0 ≤ q := by linarith
  unfold cround
  rw [if_neg hq, Int.ceil_le]
  push_cast
  linarith

theorem cround_nonpos_of_nonpos {q : ℚ} (h : q ≤ 0) : cround q ≤ 0 := by
  unfold cround
  split_ifs with hq
  · have : q = 0 := le_antisymm h hq
    subst this
    norm_num
  · rw [Int.ceil_le]
    push_cast
    linarith

/-! ## Auxiliary facts: the averaging loop -/

theorem accumStep_sum (E : FloatEnv) (p : ℕ → FVal) (i j : ℕ) (st : MonAcc) (k m : ℕ) :
    (accumStep E p i j st k).sum m =
      match pick p m i j k with
      | some v => E.rndF (E.rndD (st.sum m + v))
      | none => st.sum m := by
  unfold accumStep pick LATS LONS
  by_cases hm : k % 12 = m
  · subst hm
    cases hv : p ((k * 72 + i) * 144 + j) with
    | fin v => by_cases hr : 0 ≤ v ∧ v ≤ 30 <;> simp [hr]
    | pinf => simp
    | ninf => simp
    | nan => simp
  · cases hv : p ((k * 72 + i) * 144 + j) with
    | fin v => by_cases hr : 0 ≤ v ∧ v ≤ 30 <;> simp [hr, hm, Function.update, Ne.symm hm]
    | pinf => simp [hm]
    | ninf => simp [hm]
    | nan => simp [hm]

theorem accumStep_cnt (E : FloatEnv) (p : ℕ → FVal) (i j : ℕ) (st : MonAcc) (k m : ℕ) :
    (accumStep E p i j st k).cnt m =
      match pick p m i j k with
      | some _ => E.rndF (st.cnt m + 1)
      | none => st.cnt m := by
  unfold accumStep pick LATS LONS
  by_cases hm : k % 12 = m
  · subst hm
    cases hv : p ((k * 72 + i) * 144 + j) with
    | fin v => by_cases hr : 0 ≤ v ∧ v ≤ 30 <;> simp [hr]
    | pinf => simp
    | ninf => simp
    | nan => simp
  · cases hv : p ((k * 72 + i) * 144 + j) with
    | fin v => by_cases hr : 0 ≤ v ∧ v ≤ 30 <;> simp [hr, hm, Function.update, Ne.symm hm]
    | pinf => simp [hm]
    | ninf => simp [hm]
    | nan => simp [hm]

theorem samplesBefore_succ (p : ℕ → FVal) (m i j n : ℕ) :
    samplesBefore p m i j (n + 1) =
      samplesBefore p m i j n ++ (match pick p m i j n with | some v => [v] | none => []) := by
  unfold samplesBefore
  rw [List.range_succ, List.filterMap_append]
  cases h : pick p m i j n <;> simp [List.filterMap, h]

theorem samplesBefore_length_le (p : ℕ → FVal) (m i j n : ℕ) :
    (samplesBefore p m i j n).length ≤ n := by
  unfold samplesBefore
  calc ((List.range n).filterMap (pick p m i j)).length
      ≤ (List.range n).length := List.length_filterMap_le _ _
    _ = n := List.length_range n

theorem pick_range {p : ℕ → FVal} {m i j k : ℕ} {v : ℚ} (h : pick p m i j k = some v) :
    0 ≤ v ∧ v ≤ 30 := by
  unfold pick at h
  split_ifs at h with hm
  split at h
  · split_ifs at h with hr
    cases h
    exact hr
  · cases h

theorem samplesBefore_range (p : ℕ → FVal) (m i j n : ℕ) :
    ∀ v ∈ samplesBefore p m i j n, 0 ≤ v ∧ v ≤ 30 := by
  intro v hv
  unfold samplesBefore at hv
  rw [List.mem_filterMap] at hv
  obtain ⟨k, _, hk⟩ := hv
  exact pick_range hk

theorem accum_sum (E : FloatEnv) (p : ℕ → FVal) (i j m : ℕ) (n : ℕ) :
    (accum E p i j n).sum m = fsum E (samplesBefore p m i j n) := by
  induction n with
  | zero => simp [accum, samplesBefore, fsum]
  | succ n ih =>
    rw [accum, accumStep_sum, samplesBefore_succ, ih]
    cases pick p m i j n <;> simp [fsum, List.foldl_append]

theorem accum_cnt (E : FloatEnv) (p : ℕ → FVal) (i j m : ℕ) (n : ℕ) (hn : n ≤ 2 ^ 24) :
    (accum E p i j n).cnt m = ((samplesBefore p m i j n).length : ℚ) := by
  induction n with
  | zero => simp [accum, samplesBefore]
  | succ n ih =>
    have hlen := samplesBefore_length_le p m i j n
    rw [accum, accumStep_cnt, samplesBefore_succ, ih (by omega)]
    cases pick p m i j n with
    | none => simp
    | some v =>
      have h := E.fixF (((samplesBefore p m i j n).length : ℤ) + 1)
        (by rw [abs_of_nonneg (by positivity)]; omega)
      push_cast at h
      simp [h]

theorem rndF_zero (E : FloatEnv) : E.rndF 0 = 0 := by
  simpa using E.fixF 0 (by norm_num)

theorem rndD_zero (E : FloatEnv) : E.rndD 0 = 0 := by
  simpa using E.fixD 0 (by norm_num)

theorem rndF_natCast (E : FloatEnv) (n : ℕ) (h : n ≤ 2 ^ 24) : E.rndF (n : ℚ) = n := by
  have := E.fixF (n : ℤ) (by rw [abs_of_nonneg (by positivity)]; exact_mod_cast h)
  simpa using this

theorem rndD_natCast (E : FloatEnv) (n : ℕ) (h : n ≤ 2 ^ 53) : E.rndD (n : ℚ) = n := by
  have := E.fixD (n : ℤ) (by rw [abs_of_nonneg (by positivity)]; exact_mod_cast h)
  simpa using this

theorem fsum_snoc (E : FloatEnv) (xs : List ℚ) (v : ℚ) :
    fsum E (xs ++ [v]) = E.rndF (E.rndD (fsum E xs + v)) := by
  simp [fsum, List.foldl_append]

theorem fsum_bounds (E : FloatEnv) (xs : List ℚ) (hx : ∀ v ∈ xs, 0 ≤ v ∧ v ≤ 30)
    (hlen : 30 * xs.length ≤ 2 ^ 24) :
    0 ≤ fsum E xs ∧ fsum E xs ≤ 30 * (xs.length : ℚ) := by
  induction xs using List.reverseRecOn with
  | nil => simp [fsum]
  | append_singleton xs v ih =>
    have hv := hx v (by simp)
    have hlen2 : 30 * xs.length ≤ 2 ^ 24 := by
      simp only [List.length_append, List.length_singleton] at hlen
      omega
    obtain ⟨h0, h1⟩ := ih (fun u hu => hx u (by simp [hu])) hlen2
    rw [fsum_snoc]
    constructor
    · have h := E.monoF _ _ (E.monoD 0 (fsum E xs + v) (by linarith))
      rw [rndD_zero, rndF_zero] at h
      exact h
    · have hle : fsum E xs + v ≤ ((30 * (xs ++ [v]).length : ℕ) : ℚ) := by
        push_cast [List.length_append, List.length_singleton]
        linarith [hv.2]
      have h := E.monoF _ _ (E.monoD _ _ hle)
      rw [rndD_natCast E _ (by omega), rndF_natCast E _ hlen] at h
      push_cast at h ⊢
      exact h

theorem pick_isSome_iff (p : ℕ → FVal) (m i j k : ℕ) :
    (∃ v, pick p m i j k = some v) ↔
      (k % 12 = m ∧ inRange (p ((k * LATS + i) * LONS + j)) = true) := by
  unfold pick inRange LATS LONS
  by_cases hm : k % 12 = m
  · cases hv : p ((k * 72 + i) * 144 + j) with
    | fin v => by_cases hr : 0 ≤ v ∧ v ≤ 30 <;> simp [hm, hr]
    | pinf => simp [hm]
    | ninf => simp [hm]
    | nan => simp [hm]
  · simp [hm]

theorem monthSamples_ne_nil_iff (inp : NcInput) (m i j : ℕ) :
    monthSamples inp m i j ≠ [] ↔ hasSample inp m i j := by
  unfold monthSamples samplesBefore hasSample
  rw [← List.length_pos, List.length_pos_iff_exists_mem]
  constructor
  · rintro ⟨v, hv⟩
    rw [List.mem_filterMap] at hv
    obtain ⟨k, hk, hp⟩ := hv
    exact ⟨k, List.mem_range.mp hk, (pick_isSome_iff _ m i j k).mp ⟨v, hp⟩⟩
  · rintro ⟨k, hk, hm, hr⟩
    obtain ⟨v, hv⟩ := (pick_isSome_iff _ m i j k).mpr ⟨hm, hr⟩
    exact ⟨v, List.mem_filterMap.mpr ⟨k, List.mem_range.mpr hk, hv⟩⟩

theorem timecnt_le_of_wellFormed {inp : NcInput} (h : inp.wellFormed) :
    inp.timecnt ≤ 207126 := by
  obtain ⟨_, _, _, _, _, h⟩ := h
  unfold LATS LONS at h
  omega

theorem precipdmon_eq_fdiv (E : FloatEnv) (inp : NcInput) (m i j : ℕ)
    (ht : inp.timecnt ≤ 2 ^ 24) :
    precipdmon E inp m i j =
      fdiv E (fsum E (monthSamples inp m i j)) ((monthSamples inp m i j).length : ℚ) := by
  unfold precipdmon monthSamples
  rw [accum_sum, accum_cnt E _ i j m _ ht]

theorem precipdmon_of_nil (E : FloatEnv) (inp : NcInput) (m i j : ℕ)
    (h : monthSamples inp m i j = []) : precipdmon E inp m i j = .nan := by
  have hs : (accum E inp.precipd i j inp.timecnt).sum m = 0 := by
    rw [accum_sum]
    unfold monthSamples at h
    rw [h]
    rfl
  have hc : ∀ n, samplesBefore inp.precipd m i j n = [] →
      (accum E inp.precipd i j n).cnt m = 0 := by
    intro n
    induction n with
    | zero => intro _; rfl
    | succ n ih =>
      intro hn
      rw [samplesBefore_succ] at hn
      have h1 := List.append_eq_nil.mp hn
      rw [accum, accumStep_cnt]
      cases hp : pick inp.precipd m i j n with
      | none => simpa using ih h1.1
      | some v => rw [hp] at h1; simp at h1
  unfold precipdmon
  rw [hs, hc _ h]
  simp [fdiv]

theorem precipdmon_of_ne_nil (E : FloatEnv) (inp : NcInput) (m i j : ℕ)
    (ht : inp.timecnt ≤ 2 ^ 24) (h : monthSamples inp m i j ≠ []) :
    precipdmon E inp m i j =
      .fin (E.rndF (fsum E (monthSamples inp m i j) / ((monthSamples inp m i j).length : ℚ))) := by
  rw [precipdmon_eq_fdiv E inp m i j ht]
  have hpos : ((monthSamples inp m i j).length : ℚ) ≠ 0 := by
    have := List.length_pos.mpr h
    positivity
  simp [fdiv, hpos]

theorem mean_bounds (E : FloatEnv) (inp : NcInput) (m i j : ℕ)
    (ht : inp.timecnt ≤ 207126) (h : monthSamples inp m i j ≠ []) :
    0 ≤ E.rndF (fsum E (monthSamples inp m i j) / ((monthSamples inp m i j).length : ℚ)) ∧
    E.rndF (fsum E (monthSamples inp m i j) / ((monthSamples inp m i j).length : ℚ)) ≤ 30 := by
  have hlen : (monthSamples inp m i j).length ≤ inp.timecnt := samplesBefore_length_le _ _ _ _ _
  have hpos : (0 : ℚ) < ((monthSamples inp m i j).length : ℚ) := by
    have := List.length_pos.mpr h
    positivity
  obtain ⟨h0, h1⟩ := fsum_bounds E (monthSamples inp m i j)
    (samplesBefore_range _ _ _ _ _) (by omega)
  constructor
  · have := E.monoF 0 _ (div_nonneg h0 hpos.le)
    rwa [rndF_zero] at this
  · have hle : fsum E (monthSamples inp m i j) / ((monthSamples inp m i j).length : ℚ)
        ≤ ((30 : ℕ) : ℚ) := by
      rw [div_le_iff₀ hpos]
      push_cast
      exact h1
    have := E.monoF _ _ hle
    rwa [rndF_natCast E 30 (by norm_num)] at this

theorem encode_of_float (E : FloatEnv) (x : ℚ) (h0 : 0 ≤ E.rndF x) (h1 : E.rndF x ≤ 30) :
    ((encode E (.fin (E.rndF x)) : ℕ) : ℤ) = ⌊E.rndF x * 5⌋ ∧
      encode E (.fin (E.rndF x)) ≤ 150 := by
  have hb : ((encode E (.fin (E.rndF x)) : ℕ) : ℤ) = ⌊E.rndF x * 5⌋ := by
    show ((toUint8 (E.rndD (E.rndF x * 5)) : ℕ) : ℤ) = ⌊E.rndF x * 5⌋
    rw [E.five_exact]
    exact toUint8_of_range (by linarith) (by linarith)
  refine ⟨hb, ?_⟩
  have : ⌊E.rndF x * 5⌋ ≤ 150 := by
    have h2 : ⌊E.rndF x * 5⌋ ≤ ⌊(150 : ℚ)⌋ := Int.floor_le_floor (by linarith)
    have h3 : ⌊(150 : ℚ)⌋ = 150 := by norm_num
    omega
  omega

theorem main_ok (E : FloatEnv) (inp : NcInput) (h : inp.wellFormed) :
    main E inp = .ok ((List.range (12 * LATS * LONS)).map
      fun p => precipbyte E inp (p / (LATS * LONS)) (p / LONS % LATS) (p % LONS)) := by
  obtain ⟨h1, h2, h3, h4, h5, _⟩ := h
  simp [main, h1, h2, h3, h4, h5]

theorem output_getElem (E : FloatEnv) (inp : NcInput) (m j k : ℕ)
    (hm : m < 12) (hj : j < LATS) (hk : k < LONS) :
    ((List.range (12 * LATS * LONS)).map
      fun p => precipbyte E inp (p / (LATS * LONS)) (p / LONS % LATS) (p % LONS))[
        (m * LATS + j) * LONS + k]? = some (precipbyte E inp m j k) := by
  unfold LATS LONS at *
  have hlt : (m * 72 + j) * 144 + k < 12 * 72 * 144 := by omega
  rw [List.getElem?_map, List.getElem?_range hlt]
  have e1 : ((m * 72 + j) * 144 + k) / (72 * 144) = m := by omega
  have e2 : ((m * 72 + j) * 144 + k) / 144 % 72 = j := by omega
  have e3 : ((m * 72 + j) * 144 + k) % 144 = k := by omega
  simp [e1, e2, e3]

theorem encode_lt (E : FloatEnv) (x : FVal) : encode E x < 256 := by
  cases x with
  | fin q =>
    show toUint8 (E.rndD (q * 5)) < 256
    unfold toUint8
    have h1 := Int.emod_nonneg (truncQ (E.rndD (q * 5))) (by norm_num : (256 : ℤ) ≠ 0)
    have h2 := Int.emod_lt_of_pos (truncQ (E.rndD (q * 5))) (by norm_num : (0 : ℤ) < 256)
    omega
  | pinf => simp [encode]
  | ninf => simp [encode]
  | nan => simp [encode]

theorem sampleInput_wellFormed : sampleInput.wellFormed := by
  simp [NcInput.wellFormed, sampleInput, LATS, LONS]

theorem gapInput_wellFormed : gapInput.wellFormed := by
  simp [NcInput.wellFormed, gapInput, LATS, LONS]

theorem sampleInput_mean : precipdmon exactArith sampleInput 0 0 0 = .fin (3 / 16) := by
  norm_num [precipdmon, accum, accumStep, fdiv, sampleInput, exactArith, Function.update]

theorem sampleInput_byte : precipbyte exactArith sampleInput 0 0 0 = 0 := by
  rw [precipbyte, sampleInput_mean]
  norm_num [encode, toUint8, truncQ, exactArith, Int.floor_eq_iff]

theorem gapInput_byte_gap : precipbyte exactArith gapInput 0 0 0 = 255 := by
  norm_num [precipbyte, precipdmon, accum, accumStep, fdiv, gapInput, exactArith,
    Function.update, LATS, LONS, encode]

theorem gapInput_byte_value : precipbyte exactArith gapInput 1 0 0 = 5 := by
  norm_num [precipbyte, precipdmon, accum, accumStep, fdiv, gapInput, exactArith,
    Function.update, LATS, LONS, encode, toUint8, truncQ]
  rfl

/-! ## The precipitation preprocessor: claims -/

/-- C1: for a well formed input, month `m < 12` and cell `(j, k)`, the byte that
`main` writes at position `(m*LATS+j)*LONS+k` is 255 when the monthly mean is
not-a-number, and otherwise the mean is finite and the byte is the integer part
(truncation toward zero) of mean times five, is not 255, and stands for
`b / 5 ≤ mean < (b+1) / 5`. -/
theorem C1_emitted_byte (E : FloatEnv) (inp : NcInput) (hwf : inp.wellFormed)
    (m j k : ℕ) (hm : m < 12) (hj : j < LATS) (hk : k < LONS) :
    ∃ out : List ℕ, main E inp = .ok out ∧
      out[(m * LATS + j) * LONS + k]? = some (precipbyte E inp m j k) ∧
      (precipdmon E inp m j k = .nan → precipbyte E inp m j k = 255) ∧
      (precipdmon E inp m j k ≠ .nan →
        ∃ q : ℚ, precipdmon E inp m j k = .fin q ∧
          ((precipbyte E inp m j k : ℕ) : ℤ) = truncQ (q * 5) ∧
          precipbyte E inp m j k ≠ 255 ∧
          (precipbyte E inp m j k : ℚ) / 5 ≤ q ∧ q < ((precipbyte E inp m j k : ℚ) + 1) / 5) := by
  refine ⟨_, main_ok E inp hwf, output_getElem E inp m j k hm hj hk, ?_, ?_⟩
  · intro h
    simp [precipbyte, h, encode]
  · intro hne
    have ht := timecnt_le_of_wellFormed hwf
    have hs : monthSamples inp m j k ≠ [] := by
      intro hnil
      exact hne (precipdmon_of_nil E inp m j k hnil)
    have hmean := precipdmon_of_ne_nil E inp m j k (by omega) hs
    obtain ⟨h0, h1⟩ := mean_bounds E inp m j k ht hs
    obtain ⟨hb, hb150⟩ := encode_of_float E _ h0 h1
    refine ⟨_, hmean, ?_, ?_, ?_, ?_⟩
    · rw [precipbyte, hmean, hb, truncQ_of_nonneg (by linarith)]
    · rw [precipbyte, hmean]; omega
    · rw [precipbyte, hmean]
      have h2 := Int.floor_le (E.rndF (fsum E (monthSamples inp m j k) /
        ((monthSamples inp m j k).length : ℚ)) * 5)
      rw [← hb] at h2
      push_cast at h2
      linarith
    · rw [precipbyte, hmean]
      have h2 := Int.lt_floor_add_one (E.rndF (fsum E (monthSamples inp m j k) /
        ((monthSamples inp m j k).length : ℚ)) * 5)
      rw [← hb] at h2
      push_cast at h2
      linarith

/-- Instance of C1 on the one month dataset, month 0 and cell (0, 0). -/
theorem C1_emitted_byte_witness :
    sampleInput.wellFormed ∧ (0 < 12 ∧ 0 < LATS ∧ 0 < LONS) ∧
    ∃ out : List ℕ, main exactArith sampleInput = .ok out ∧
      out[(0 * LATS + 0) * LONS + 0]? = some (precipbyte exactArith sampleInput 0 0 0) ∧
      (precipdmon exactArith sampleInput 0 0 0 = .nan →
        precipbyte exactArith sampleInput 0 0 0 = 255) ∧
      (precipdmon exactArith sampleInput 0 0 0 ≠ .nan →
        ∃ q : ℚ, precipdmon exactArith sampleInput 0 0 0 = .fin q ∧
          ((precipbyte exactArith sampleInput 0 0 0 : ℕ) : ℤ) = truncQ (q * 5) ∧
          precipbyte exactArith sampleInput 0 0 0 ≠ 255 ∧
          (precipbyte exactArith sampleInput 0 0 0 : ℚ) / 5 ≤ q ∧
          q < ((precipbyte exactArith sampleInput 0 0 0 : ℚ) + 1) / 5) :=
  ⟨sampleInput_wellFormed, ⟨by decide, by decide, by decide⟩,
    C1_emitted_byte exactArith sampleInput sampleInput_wellFormed 0 0 0
      (by decide) (by decide) (by decide)⟩

/-- C2 (as stated, refuted): the value `3/16` lies in `[0, 30]` and is a `float`,
its byte is 0, which decodes to 0, and `|0 - 3/16|` exceeds `1/10`. -/
theorem C2_counterexample :
    exactArith.rndF (3 / 16) = 3 / 16 ∧ (0 : ℚ) ≤ 3 / 16 ∧ (3 / 16 : ℚ) ≤ 30 ∧
    decode (encode exactArith (.fin (3 / 16))) = some 0 ∧
    ¬ (|(0 : ℚ) - 3 / 16| ≤ 1 / 10) := by
  refine ⟨rfl, by norm_num, by norm_num, ?_, by norm_num [abs_le]⟩
  have h : encode exactArith (.fin (3 / 16)) = 0 := by
    simp only [encode, exactArith, toUint8]
    norm_num [truncQ, Int.floor_eq_iff]
  rw [h]
  simp [decode]

/-- C2 (amended): for every `float` value `v` with `0 ≤ v ≤ 30`, decoding the
byte encoded for `v` gives a value `d` with `0 ≤ v - d < 1/5` (the encoder
truncates, so the error is one sided and below one quantization step); the
byte encoded for a not-a-number is the sentinel, and the sentinel 255 decodes
to missing. -/
theorem C2_round_trip (E : FloatEnv) (v : ℚ) (hv : E.rndF v = v) (h0 : 0 ≤ v) (h1 : v ≤ 30) :
    (∃ d : ℚ, decode (encode E (.fin v)) = some d ∧ 0 ≤ v - d ∧ v - d < 1 / 5) ∧
    encode E .nan = 255 ∧ decode 255 = none := by
  refine ⟨?_, rfl, by simp [decode]⟩
  rw [← hv] at h0 h1
  obtain ⟨hb, hb150⟩ := encode_of_float E v h0 h1
  rw [hv] at hb hb150
  have hne : encode E (.fin v) ≠ 255 := by omega
  refine ⟨(encode E (.fin v) : ℚ) / 5, by simp [decode, hne], ?_, ?_⟩
  · have h2 := Int.floor_le (v * 5)
    rw [← hb] at h2
    push_cast at h2
    linarith
  · have h2 := Int.lt_floor_add_one (v * 5)
    rw [← hb] at h2
    push_cast at h2
    linarith

/-- Instance of the amended C2 at the value 3/16. -/
theorem C2_round_trip_witness :
    (exactArith.rndF (3 / 16) = 3 / 16 ∧ (0 : ℚ) ≤ 3 / 16 ∧ (3 / 16 : ℚ) ≤ 30) ∧
    (∃ d : ℚ, decode (encode exactArith (.fin (3 / 16))) = some d ∧
      0 ≤ 3 / 16 - d ∧ 3 / 16 - d < 1 / 5) ∧
    encode exactArith .nan = 255 ∧ decode 255 = none :=
  ⟨⟨rfl, by norm_num, by norm_num⟩,
    C2_round_trip exactArith (3 / 16) rfl (by norm_num) (by norm_num)⟩

/-- C3 (as stated, refuted): on a well formed input `main` writes a sequence
whose length is not `13 * LATS * LONS`. -/
theorem C3_counterexample :
    sampleInput.wellFormed ∧
    ∃ out : List ℕ, main exactArith sampleInput = .ok out ∧ out.length ≠ 13 * LATS * LONS := by
  refine ⟨sampleInput_wellFormed, _, main_ok exactArith sampleInput sampleInput_wellFormed, ?_⟩
  simp [LATS, LONS]

/-- C3 (amended): for every well formed input `main` writes exactly
`12 * LATS * LONS = 124416` single-byte samples, with `LATS = 72` and
`LONS = 144`: the twelve monthly slices and no annual slice; every sample is
below 256. -/
theorem C3_output_length (E : FloatEnv) (inp : NcInput) (hwf : inp.wellFormed) :
    ∃ out : List ℕ, main E inp = .ok out ∧ out.length = 12 * LATS * LONS ∧
      12 * LATS * LONS = 124416 ∧ LATS = 72 ∧ LONS = 144 ∧ ∀ b ∈ out, b < 256 := by
  refine ⟨_, main_ok E inp hwf, ?_, rfl, rfl, rfl, ?_⟩
  · simp
  · intro b hb
    rw [List.mem_map] at hb
    obtain ⟨p, _, rfl⟩ := hb
    exact encode_lt E _

/-- Instance of the amended C3 on the one month dataset. -/
theorem C3_output_length_witness :
    sampleInput.wellFormed ∧
    ∃ out : List ℕ, main exactArith sampleInput = .ok out ∧ out.length = 12 * LATS * LONS ∧
      12 * LATS * LONS = 124416 ∧ LATS = 72 ∧ LONS = 144 ∧ ∀ b ∈ out, b < 256 :=
  ⟨sampleInput_wellFormed, C3_output_length exactArith sampleInput sampleInput_wellFormed⟩

/-- C7: when no time index `k < timecnt` with `k % 12 = m` has a sample of cell
`(i, j)` inside `[0, 30]`, the sum and the count of month `m` are both zero, the
monthly mean is the not-a-number `0/0`, and the byte of `(m, i, j)` is 255 (not
zero). -/
theorem C7_no_observation_is_missing (E : FloatEnv) (inp : NcInput) (m i j : ℕ)
    (h : ∀ k, k < inp.timecnt → k % 12 = m →
      inRange (inp.precipd ((k * LATS + i) * LONS + j)) = false) :
    (accum E inp.precipd i j inp.timecnt).sum m = 0 ∧
    (accum E inp.precipd i j inp.timecnt).cnt m = 0 ∧
    fdiv E 0 0 = .nan ∧
    precipdmon E inp m i j = .nan ∧ precipbyte E inp m i j = 255 := by
  have hnil : monthSamples inp m i j = [] := by
    by_contra hne
    obtain ⟨k, hk, hm, hr⟩ := (monthSamples_ne_nil_iff inp m i j).mp hne
    rw [h k hk hm] at hr
    cases hr
  have hmean := precipdmon_of_nil E inp m i j hnil
  have hs : (accum E inp.precipd i j inp.timecnt).sum m = 0 := by
    rw [accum_sum]
    unfold monthSamples at hnil
    rw [hnil]
    rfl
  have hc : (accum E inp.precipd i j inp.timecnt).cnt m = 0 := by
    by_contra hc
    unfold precipdmon at hmean
    rw [hs] at hmean
    simp [fdiv, hc] at hmean
  refine ⟨hs, hc, by simp [fdiv], hmean, ?_⟩
  simp [precipbyte, hmean, encode]

/-- Instance of C7 on the two month dataset: month 0 of cell (0, 0) holds only the fill value. -/
theorem C7_no_observation_is_missing_witness :
    (∀ k, k < gapInput.timecnt → k % 12 = 0 →
      inRange (gapInput.precipd ((k * LATS + 0) * LONS + 0)) = false) ∧
    (accum exactArith gapInput.precipd 0 0 gapInput.timecnt).sum 0 = 0 ∧
    (accum exactArith gapInput.precipd 0 0 gapInput.timecnt).cnt 0 = 0 ∧
    fdiv exactArith 0 0 = .nan ∧
    precipdmon exactArith gapInput 0 0 0 = .nan ∧ precipbyte exactArith gapInput 0 0 0 = 255 :=
  have h : ∀ k, k < gapInput.timecnt → k % 12 = 0 →
      inRange (gapInput.precipd ((k * LATS + 0) * LONS + 0)) = false := by
    intro k hk hm
    have hk2 : k < 2 := hk
    have hk0 : k = 0 := by omega
    subst hk0
    simp [gapInput, inRange]
  ⟨h, C7_no_observation_is_missing exactArith gapInput 0 0 0 h⟩

/-- C9: for a well formed input, a cell and month with at least one sample in
`[0, 30]` has a finite monthly mean in `[0, 30]` and a byte in `0..150` that is
the truncated product without any reduction modulo 256; and the byte of any
cell and month is 255 if and only if the cell and month has no in-range
sample. -/
theorem C9_no_sentinel_collision (E : FloatEnv) (inp : NcInput) (hwf : inp.wellFormed)
    (m i j : ℕ) :
    (hasSample inp m i j →
      ∃ q : ℚ, precipdmon E inp m i j = .fin q ∧ 0 ≤ q ∧ q ≤ 30 ∧
        precipbyte E inp m i j ≤ 150 ∧
        truncQ (E.rndD (q * 5)) = ((precipbyte E inp m i j : ℕ) : ℤ)) ∧
    (precipbyte E inp m i j = 255 ↔ ¬ hasSample inp m i j) := by
  have ht := timecnt_le_of_wellFormed hwf
  have key : hasSample inp m i j →
      ∃ q : ℚ, precipdmon E inp m i j = .fin q ∧ 0 ≤ q ∧ q ≤ 30 ∧
        precipbyte E inp m i j ≤ 150 ∧
        truncQ (E.rndD (q * 5)) = ((precipbyte E inp m i j : ℕ) : ℤ) := by
    intro h
    have hs := (monthSamples_ne_nil_iff inp m i j).mpr h
    have hmean := precipdmon_of_ne_nil E inp m i j (by omega) hs
    obtain ⟨h0, h1⟩ := mean_bounds E inp m i j ht hs
    obtain ⟨hb, hb150⟩ := encode_of_float E _ h0 h1
    refine ⟨_, hmean, h0, h1, ?_, ?_⟩
    · rw [precipbyte, hmean]; exact hb150
    · rw [precipbyte, hmean, hb, E.five_exact, truncQ_of_nonneg (by linarith)]
  refine ⟨key, ?_, ?_⟩
  · intro hb hs
    obtain ⟨q, _, _, _, h150, _⟩ := key hs
    omega
  · intro hns
    have hnil : monthSamples inp m i j = [] := by
      by_contra hne
      exact hns ((monthSamples_ne_nil_iff inp m i j).mp hne)
    simp [precipbyte, precipdmon_of_nil E inp m i j hnil, encode]

/-- Instance of C9 on the one month dataset, month 0 and cell (0, 0). -/
theorem C9_no_sentinel_collision_witness :
    sampleInput.wellFormed ∧
    (hasSample sampleInput 0 0 0 →
      ∃ q : ℚ, precipdmon exactArith sampleInput 0 0 0 = .fin q ∧ 0 ≤ q ∧ q ≤ 30 ∧
        precipbyte exactArith sampleInput 0 0 0 ≤ 150 ∧
        truncQ (exactArith.rndD (q * 5)) = ((precipbyte exactArith sampleInput 0 0 0 : ℕ) : ℤ)) ∧
    (precipbyte exactArith sampleInput 0 0 0 = 255 ↔ ¬ hasSample sampleInput 0 0 0) :=
  ⟨sampleInput_wellFormed,
    C9_no_sentinel_collision exactArith sampleInput sampleInput_wellFormed 0 0 0⟩

/-! ## Auxiliary facts: the wind atlas grid -/

theorem build_latitudes (lats lons dirs : ℤ) (cells : ℕ → WindPolar) :
    (WindData.build lats lons dirs cells).latitudes = lats := rfl

theorem build_longitudes (lats lons dirs : ℤ) (cells : ℕ → WindPolar) :
    (WindData.build lats lons dirs cells).longitudes = lons := rfl

theorem build_size (lats lons dirs : ℤ) (cells : ℕ → WindPolar) :
    (WindData.build lats lons dirs cells).data.size = (lats * lons).toNat := by
  simp [WindData.build, WindData.fill, WindData.create]

theorem build_load (lats lons dirs : ℤ) (cells : ℕ → WindPolar) (idx : ℤ)
    (h0 : 0 ≤ idx) (h1 : idx < lats * lons) :
    (WindData.build lats lons dirs cells).load idx = some (cells idx.toNat) := by
  have hlt : idx.toNat < (lats * lons).toNat := by omega
  unfold WindData.load
  rw [if_pos h0]
  have hsz : idx.toNat < (WindData.build lats lons dirs cells).data.size := by
    rw [build_size]; exact hlt
  rw [Array.getElem?_eq_getElem hsz]
  simp [WindData.build, WindData.fill]

theorem polarIndex_some (E : FloatEnv) (w : WindData) (lat lon : ℚ) (idx : ℤ)
    (h : polarIndex E w lat lon = some idx) :
    0 ≤ latIndex E w lat ∧ latIndex E w lat < w.latitudes ∧
    0 ≤ lonIndex E w lon ∧ lonIndex E w lon < w.longitudes ∧
    idx = latIndex E w lat * w.longitudes + lonIndex E w lon ∧
    0 ≤ idx ∧ idx < w.latitudes * w.longitudes := by
  unfold polarIndex at h
  split_ifs at h with hc
  push_neg at hc
  obtain ⟨h1, h2, h3, h4⟩ := hc
  have he : idx = latIndex E w lat * w.longitudes + lonIndex E w lon := by
    cases h; rfl
  refine ⟨h1, h2, h3, h4, he, ?_, ?_⟩
  · rw [he]
    have : 0 ≤ latIndex E w lat * w.longitudes := mul_nonneg h1 (by omega)
    omega
  · rw [he]
    have h5 : (latIndex E w lat + 1) * w.longitudes ≤ w.latitudes * w.longitudes :=
      mul_le_mul_of_nonneg_right (by omega) (by omega)
    linarith

theorem polarIndex_of_inside (E : FloatEnv) (w : WindData) (lat lon : ℚ)
    (h1 : 0 ≤ latIndex E w lat) (h2 : latIndex E w lat < w.latitudes)
    (h3 : 0 ≤ lonIndex E w lon) (h4 : lonIndex E w lon < w.longitudes) :
    polarIndex E w lat lon = some (latIndex E w lat * w.longitudes + lonIndex E w lon) := by
  unfold polarIndex
  rw [if_neg]
  push_neg
  exact ⟨h1, h2, h3, h4⟩

theorem polarIndex_none_of_lat (E : FloatEnv) (w : WindData) (lat lon : ℚ)
    (h : latIndex E w lat < 0 ∨ w.latitudes ≤ latIndex E w lat) :
    polarIndex E w lat lon = none := by
  unfold polarIndex
  rw [if_pos]
  rcases h with h | h
  · exact Or.inl h
  · exact Or.inr (Or.inl h)

theorem polarIndex_none_of_lon (E : FloatEnv) (w : WindData) (lat lon : ℚ)
    (h : lonIndex E w lon < 0 ∨ w.longitudes ≤ lonIndex E w lon) :
    polarIndex E w lat lon = none := by
  unfold polarIndex
  rw [if_pos]
  rcases h with h | h
  · exact Or.inr (Or.inr (Or.inl h))
  · exact Or.inr (Or.inr (Or.inr h))

theorem GetPolar_of_none (E : FloatEnv) (w : WindData) (lat lon : ℚ)
    (h : polarIndex E w lat lon = none) : GetPolar E w lat lon = .null := by
  simp [GetPolar, h]

theorem GetPolar_build (E : FloatEnv) (lats lons dirs : ℤ) (cells : ℕ → WindPolar)
    (lat lon : ℚ) (idx : ℤ)
    (h : polarIndex E (WindData.build lats lons dirs cells) lat lon = some idx) :
    GetPolar E (WindData.build lats lons dirs cells) lat lon =
      if (cells idx.toNat).storm = 255 then .null else .cell idx.toNat := by
  obtain ⟨_, _, _, _, _, h0, h1⟩ := polarIndex_some E _ lat lon idx h
  rw [build_latitudes, build_longitudes] at h1
  simp [GetPolar, h, build_load lats lons dirs cells idx h0 h1]

theorem rndD_intCast (E : FloatEnv) (n : ℤ) (h0 : -(2 ^ 53) ≤ n) (h1 : n ≤ 2 ^ 53) :
    E.rndD (n : ℚ) = n :=
  E.fixD n (abs_le.mpr ⟨h0, h1⟩)

theorem rndD_half (E : FloatEnv) (n : ℤ) (h0 : -(2 ^ 53) ≤ n) (h1 : n ≤ 2 ^ 53) :
    E.rndD ((n : ℚ) / 2) = (n : ℚ) / 2 :=
  E.halfD n (abs_le.mpr ⟨h0, h1⟩)

theorem latIndex_ge_of_north (E : FloatEnv) (w : WindData) (lat : ℚ)
    (hL1 : 1 ≤ w.latitudes) (hL2 : w.latitudes < 2 ^ 31) (h : 90 < lat) :
    w.latitudes ≤ latIndex E w lat := by
  have hL : (1 : ℚ) ≤ (w.latitudes : ℚ) := by exact_mod_cast hL1
  have s1 : (1 : ℚ) / 2 ≤ E.rndD (lat / 180) := by
    have := E.monoD (((1 : ℤ) : ℚ) / 2) (lat / 180) (by push_cast; linarith)
    rwa [rndD_half E 1 (by norm_num) (by norm_num), Int.cast_one] at this
  have s2 : (1 : ℚ) ≤ E.rndD (1 / 2 + E.rndD (lat / 180)) := by
    have := E.monoD ((1 : ℤ) : ℚ) (1 / 2 + E.rndD (lat / 180)) (by push_cast; linarith)
    rwa [rndD_intCast E 1 (by norm_num) (by norm_num), Int.cast_one] at this
  have s3 : (w.latitudes : ℚ) ≤
      E.rndD ((w.latitudes : ℚ) * E.rndD (1 / 2 + E.rndD (lat / 180))) := by
    have := E.monoD (w.latitudes : ℚ) ((w.latitudes : ℚ) * E.rndD (1 / 2 + E.rndD (lat / 180)))
      (by nlinarith)
    rwa [rndD_intCast E _ (by omega) (by omega)] at this
  exact cround_ge_of_le hL1 (by linarith)

theorem latIndex_nonpos_of_south (E : FloatEnv) (w : WindData) (lat : ℚ)
    (hL : 0 ≤ w.latitudes) (h : lat < -90) : latIndex E w lat ≤ 0 := by
  have hLq : (0 : ℚ) ≤ (w.latitudes : ℚ) := by exact_mod_cast hL
  have s1 : E.rndD (lat / 180) ≤ -(1 / 2) := by
    have := E.monoD (lat / 180) (((-1 : ℤ) : ℚ) / 2) (by push_cast; linarith)
    rw [rndD_half E (-1) (by norm_num) (by norm_num)] at this
    push_cast at this
    linarith
  have s2 : E.rndD (1 / 2 + E.rndD (lat / 180)) ≤ 0 := by
    have := E.monoD (1 / 2 + E.rndD (lat / 180)) 0 (by linarith)
    rwa [rndD_zero] at this
  have s3 : E.rndD ((w.latitudes : ℚ) * E.rndD (1 / 2 + E.rndD (lat / 180))) ≤ 0 := by
    have := E.monoD ((w.latitudes : ℚ) * E.rndD (1 / 2 + E.rndD (lat / 180))) 0
      (mul_nonpos_of_nonneg_of_nonpos hLq s2)
    rwa [rndD_zero] at this
  exact cround_nonpos_of_nonpos s3

theorem latIndex_neg_of_far_south (E : FloatEnv) (w : WindData) (lat : ℚ)
    (hL : 1 ≤ w.latitudes) (h : lat ≤ -180) : latIndex E w lat ≤ -1 := by
  have hLq : (1 : ℚ) ≤ (w.latitudes : ℚ) := by exact_mod_cast hL
  have s1 : E.rndD (lat / 180) ≤ -1 := by
    have := E.monoD (lat / 180) ((-1 : ℤ) : ℚ) (by push_cast; linarith)
    rw [rndD_intCast E (-1) (by norm_num) (by norm_num)] at this
    push_cast at this
    linarith
  have s2 : E.rndD (1 / 2 + E.rndD (lat / 180)) ≤ -(1 / 2) := by
    have := E.monoD (1 / 2 + E.rndD (lat / 180)) (((-1 : ℤ) : ℚ) / 2) (by push_cast; linarith)
    rw [rndD_half E (-1) (by norm_num) (by norm_num)] at this
    push_cast at this
    linarith
  have s3 : E.rndD ((w.latitudes : ℚ) * E.rndD (1 / 2 + E.rndD (lat / 180))) ≤ -(1 / 2) := by
    have := E.monoD ((w.latitudes : ℚ) * E.rndD (1 / 2 + E.rndD (lat / 180)))
      (((-1 : ℤ) : ℚ) / 2) (by push_cast; nlinarith)
    rw [rndD_half E (-1) (by norm_num) (by norm_num)] at this
    push_cast at this
    linarith
  exact cround_neg_of_le s3

theorem lonIndex_ge_of_east (E : FloatEnv) (w : WindData) (lon : ℚ)
    (hL1 : 1 ≤ w.longitudes) (hL2 : w.longitudes < 2 ^ 31)
    (h : 360 * (w.longitudes : ℚ) - 180 ≤ (w.longitudes : ℚ) * lon) :
    w.longitudes ≤ lonIndex E w lon := by
  have s1 : 360 * (w.longitudes : ℚ) - 180 ≤ E.rndD ((w.longitudes : ℚ) * lon) := by
    have := E.monoD ((360 * w.longitudes - 180 : ℤ) : ℚ) ((w.longitudes : ℚ) * lon)
      (by push_cast; linarith)
    rw [rndD_intCast E _ (by omega) (by omega)] at this
    push_cast at this
    exact this
  have s2 : (w.longitudes : ℚ) - 1 / 2 ≤ E.rndD (E.rndD ((w.longitudes : ℚ) * lon) / 360) := by
    have := E.monoD (((2 * w.longitudes - 1 : ℤ) : ℚ) / 2)
      (E.rndD ((w.longitudes : ℚ) * lon) / 360)
      (by push_cast; rw [le_div_iff₀ (by norm_num)]; linarith)
    rw [rndD_half E _ (by omega) (by omega)] at this
    push_cast at this
    linarith
  exact cround_ge_of_le hL1 s2

theorem lonIndex_neg_of_west (E : FloatEnv) (w : WindData) (lon : ℚ)
    (h : (w.longitudes : ℚ) * lon ≤ -180) : lonIndex E w lon ≤ -1 := by
  have s1 : E.rndD ((w.longitudes : ℚ) * lon) ≤ -180 := by
    have := E.monoD ((w.longitudes : ℚ) * lon) ((-180 : ℤ) : ℚ) (by push_cast; linarith)
    rw [rndD_intCast E (-180) (by norm_num) (by norm_num)] at this
    push_cast at this
    exact this
  have s2 : E.rndD (E.rndD ((w.longitudes : ℚ) * lon) / 360) ≤ -(1 / 2) := by
    have := E.monoD (E.rndD ((w.longitudes : ℚ) * lon) / 360) (((-1 : ℤ) : ℚ) / 2)
      (by push_cast; rw [div_le_iff₀ (by norm_num)]; linarith)
    rw [rndD_half E (-1) (by norm_num) (by norm_num)] at this
    push_cast at this
    linarith
  exact cround_neg_of_le s2

theorem sampleGrid_latIndex_zero : latIndex exactArith sampleGrid 0 = 2 := by
  norm_num [latIndex, cround, exactArith, sampleGrid, WindData.build, WindData.fill,
    WindData.create, Int.floor_eq_iff]

theorem sampleGrid_lonIndex_zero : lonIndex exactArith sampleGrid 0 = 0 := by
  norm_num [lonIndex, cround, exactArith, sampleGrid, WindData.build, WindData.fill,
    WindData.create]

theorem sampleGrid_lonIndex_360 : lonIndex exactArith sampleGrid (0 + 360 * ((1 : ℤ) : ℚ)) = 8 := by
  norm_num [lonIndex, cround, exactArith, sampleGrid, WindData.build, WindData.fill,
    WindData.create, Int.floor_eq_iff]

theorem sampleGrid_latIndex_south : latIndex exactArith sampleGrid (-405 / 4) = 0 := by
  norm_num [latIndex, cround, exactArith, sampleGrid, WindData.build, WindData.fill,
    WindData.create, Int.ceil_eq_iff]

/-! ## The wind atlas point lookup: claims -/

/-- C5 (as stated, refuted): on the four by eight grid whose cells all have
storm byte 0, `GetPolar(0, 0)` returns the cell at offset 16 while
`GetPolar(0, 0 + 360·1)` returns the null pointer. -/
theorem C5_counterexample :
    GetPolar exactArith sampleGrid 0 0 = .cell 16 ∧
    GetPolar exactArith sampleGrid 0 (0 + 360 * ((1 : ℤ) : ℚ)) = .null ∧
    GetPolar exactArith sampleGrid 0 (0 + 360 * ((1 : ℤ) : ℚ)) ≠
      GetPolar exactArith sampleGrid 0 0 := by
  have hp : polarIndex exactArith sampleGrid 0 0 = some 16 := by
    have := polarIndex_of_inside exactArith sampleGrid 0 0
      (by rw [sampleGrid_latIndex_zero]; norm_num)
      (by rw [sampleGrid_latIndex_zero]; exact (by norm_num : (2 : ℤ) < 4))
      (by rw [sampleGrid_lonIndex_zero])
      (by rw [sampleGrid_lonIndex_zero]; exact (by norm_num : (0 : ℤ) < 8))
    rw [sampleGrid_latIndex_zero, sampleGrid_lonIndex_zero] at this
    exact this
  have hc : GetPolar exactArith sampleGrid 0 0 = .cell 16 := by
    have := GetPolar_build exactArith 4 8 8
      (fun _ => { storm := 0, calm := 0, directions := [], speeds := [] }) 0 0 16 hp
    simpa using this
  have hn : GetPolar exactArith sampleGrid 0 (0 + 360 * ((1 : ℤ) : ℚ)) = .null := by
    apply GetPolar_of_none
    apply polarIndex_none_of_lon
    right
    rw [sampleGrid_lonIndex_360]
    exact (by norm_num : (8 : ℤ) ≤ 8)
  refine ⟨hc, hn, ?_⟩
  rw [hc, hn]
  simp

/-- C5 (amended): `GetPolar` does not wrap the longitude.  On a grid with
`1 ≤ longitudes < 2^31`, for every `lat`, `lon` and every integer `k ≠ 0`, at
most one of `GetPolar(lat, lon)` and `GetPolar(lat, lon + 360·k)` is a cell:
whenever one of the two lookups returns a cell the other returns the null
pointer, so the two results agree only when both are missing. -/
theorem C5_no_longitude_wrap (E : FloatEnv) (lats lons dirs : ℤ) (cells : ℕ → WindPolar)
    (hL1 : 1 ≤ lons) (hL2 : lons < 2 ^ 31) (lat lon : ℚ) (k : ℤ) (hk : k ≠ 0) :
    GetPolar E (WindData.build lats lons dirs cells) lat lon = .null ∨
    GetPolar E (WindData.build lats lons dirs cells) lat (lon + 360 * (k : ℚ)) = .null := by
  have hLq : (1 : ℚ) ≤ (lons : ℚ) := by exact_mod_cast hL1
  have hw : (WindData.build lats lons dirs cells).longitudes = lons := rfl
  by_cases hlo : (lons : ℚ) * lon ≤ -180
  · left
    apply GetPolar_of_none
    apply polarIndex_none_of_lon
    left
    have := lonIndex_neg_of_west E (WindData.build lats lons dirs cells) lon (by rw [hw]; exact hlo)
    omega
  by_cases hhi : 360 * (lons : ℚ) - 180 ≤ (lons : ℚ) * lon
  · left
    apply GetPolar_of_none
    apply polarIndex_none_of_lon
    right
    exact lonIndex_ge_of_east E (WindData.build lats lons dirs cells) lon
      (by rw [hw]; exact hL1) (by rw [hw]; exact hL2) (by rw [hw]; exact hhi)
  push_neg at hlo hhi
  right
  apply GetPolar_of_none
  apply polarIndex_none_of_lon
  rcases lt_or_gt_of_ne hk with hneg | hpos
  · left
    have hkq : (k : ℚ) ≤ -1 := by exact_mod_cast (by omega : k ≤ -1)
    have := lonIndex_neg_of_west E (WindData.build lats lons dirs cells) (lon + 360 * (k : ℚ))
      (by rw [hw]; nlinarith)
    omega
  · right
    have hkq : (1 : ℚ) ≤ (k : ℚ) := by exact_mod_cast (by omega : 1 ≤ k)
    exact lonIndex_ge_of_east E (WindData.build lats lons dirs cells) (lon + 360 * (k : ℚ))
      (by rw [hw]; exact hL1) (by rw [hw]; exact hL2) (by rw [hw]; nlinarith)

/-- Instance of the amended C5 on the four by eight grid with `k = 1`. -/
theorem C5_no_longitude_wrap_witness :
    ((1 : ℤ) ≤ 8 ∧ (8 : ℤ) < 2 ^ 31 ∧ (1 : ℤ) ≠ 0) ∧
    (GetPolar exactArith sampleGrid 0 0 = .null ∨
      GetPolar exactArith sampleGrid 0 (0 + 360 * ((1 : ℤ) : ℚ)) = .null) :=
  ⟨⟨by norm_num, by norm_num, by norm_num⟩,
    C5_no_longitude_wrap exactArith 4 8 8
      (fun _ => { storm := 0, calm := 0, directions := [], speeds := [] })
      (by norm_num) (by norm_num) 0 0 1 (by norm_num)⟩

/-- C6 (as stated, refuted): on the four by eight grid whose cells all have
storm byte 0 the latitude `-101.25` is below `-90`, yet `GetPolar(-101.25, 0)`
returns the cell at offset 0 (row 0), not the null pointer. -/
theorem C6_counterexample :
    (1 ≤ sampleGrid.latitudes ∧ 1 ≤ sampleGrid.longitudes ∧ (-405 / 4 : ℚ) < -90) ∧
    GetPolar exactArith sampleGrid (-405 / 4) 0 = .cell 0 ∧
    GetPolar exactArith sampleGrid (-405 / 4) 0 ≠ .null := by
  have hp : polarIndex exactArith sampleGrid (-405 / 4) 0 = some 0 := by
    have := polarIndex_of_inside exactArith sampleGrid (-405 / 4) 0
      (by rw [sampleGrid_latIndex_south])
      (by rw [sampleGrid_latIndex_south]; exact (by norm_num : (0 : ℤ) < 4))
      (by rw [sampleGrid_lonIndex_zero])
      (by rw [sampleGrid_lonIndex_zero]; exact (by norm_num : (0 : ℤ) < 8))
    rw [sampleGrid_latIndex_south, sampleGrid_lonIndex_zero] at this
    simpa using this
  have hc : GetPolar exactArith sampleGrid (-405 / 4) 0 = .cell 0 := by
    have := GetPolar_build exactArith 4 8 8
      (fun _ => { storm := 0, calm := 0, directions := [], speeds := [] }) (-405 / 4) 0 0 hp
    simpa using this
  refine ⟨⟨by decide, by decide, by norm_num⟩, hc, ?_⟩
  rw [hc]
  simp

/-- C6 (amended): on a grid with `1 ≤ latitudes < 2^31`, for every longitude,
every latitude `lat > 90` yields the null pointer, and so does every
`lat ≤ -180`; a latitude `lat < -90` yields the null pointer or a cell of row 0
(an offset below `longitudes`), never a cell of another row: latitudes
slightly below `-90` round to the southernmost row. -/
theorem C6_out_of_range_latitude (E : FloatEnv) (lats lons dirs : ℤ) (cells : ℕ → WindPolar)
    (hL1 : 1 ≤ lats) (hL2 : lats < 2 ^ 31) (lat lon : ℚ) :
    (90 < lat → GetPolar E (WindData.build lats lons dirs cells) lat lon = .null) ∧
    (lat ≤ -180 → GetPolar E (WindData.build lats lons dirs cells) lat lon = .null) ∧
    (lat < -90 →
      GetPolar E (WindData.build lats lons dirs cells) lat lon = .null ∨
      ∃ idx : ℕ, GetPolar E (WindData.build lats lons dirs cells) lat lon = .cell idx ∧
        (idx : ℤ) < lons) := by
  have hw : (WindData.build lats lons dirs cells).latitudes = lats := rfl
  refine ⟨?_, ?_, ?_⟩
  · intro h
    apply GetPolar_of_none
    apply polarIndex_none_of_lat
    right
    exact latIndex_ge_of_north E (WindData.build lats lons dirs cells) lat
      (by rw [hw]; exact hL1) (by rw [hw]; exact hL2) h
  · intro h
    apply GetPolar_of_none
    apply polarIndex_none_of_lat
    left
    have := latIndex_neg_of_far_south E (WindData.build lats lons dirs cells) lat
      (by rw [hw]; exact hL1) h
    omega
  · intro h
    have hle := latIndex_nonpos_of_south E (WindData.build lats lons dirs cells) lat
      (by rw [hw]; omega) h
    cases hp : polarIndex E (WindData.build lats lons dirs cells) lat lon with
    | none => exact Or.inl (GetPolar_of_none E _ lat lon hp)
    | some idx =>
      obtain ⟨h1, _, h3, h4, he, h0, _⟩ := polarIndex_some E _ lat lon idx hp
      have hz : latIndex E (WindData.build lats lons dirs cells) lat = 0 := by omega
      rw [hz, build_longitudes] at he
      rw [build_longitudes] at h4
      rw [GetPolar_build E lats lons dirs cells lat lon idx hp]
      split_ifs with hs
      · exact Or.inl rfl
      · refine Or.inr ⟨idx.toNat, rfl, ?_⟩
        omega

/-- Instance of the amended C6 on the four by eight grid at latitude -101.25. -/
theorem C6_out_of_range_latitude_witness :
    ((1 : ℤ) ≤ 4 ∧ (4 : ℤ) < 2 ^ 31) ∧
    (90 < (-405 / 4 : ℚ) → GetPolar exactArith sampleGrid (-405 / 4) 0 = .null) ∧
    ((-405 / 4 : ℚ) ≤ -180 → GetPolar exactArith sampleGrid (-405 / 4) 0 = .null) ∧
    ((-405 / 4 : ℚ) < -90 →
      GetPolar exactArith sampleGrid (-405 / 4) 0 = .null ∨
      ∃ idx : ℕ, GetPolar exactArith sampleGrid (-405 / 4) 0 = .cell idx ∧ (idx : ℤ) < 8) :=
  ⟨⟨by norm_num, by norm_num⟩,
    C6_out_of_range_latitude exactArith 4 8 8
      (fun _ => { storm := 0, calm := 0, directions := [], speeds := [] })
      (by norm_num) (by norm_num) (-405 / 4) 0⟩

end Climatology
